import Mathlib

/-!
Verification development for the Sharko repository.

The central script `final_dataset.py` joins shark occurrence points (plus
synthetic pseudo-absence points) against gridded and track environmental
sources by nearest-neighbour lookup, drops incomplete rows, and writes a
compressed CSV.  The helper script
`Dataset Process & Creation/SST_script_8day.py` downloads the SST source
files with retry logic.

This file gives a shallow embedding of those operations:

* the per-axis nearest-index selection performed by
  `xr.Dataset.sel(..., method='nearest')`, embedded by translating the
  pandas indexer it delegates to (`Index.get_indexer(method='nearest')`,
  built from the `pad`/`backfill` searchsorted indexers);
* the label-slice cropping performed by `ds.sel(lat=slice(...), lon=slice(...))`
  (pandas `slice_locs` semantics) together with the zero-dimension skip;
* the k-d tree nearest-neighbour extraction `_extract_track_data_with_kdtree`;
* the pseudo-absence sampler (`np.random.uniform` / `np.random.randint`);
* the per-source processing loop, the `dropna` row filter, the column
  reordering and the output artifact;
* the `download_nc_file` retry/skip/log logic of the SST download script.

Machine floats are modelled by `ℚ` (every concrete coordinate the scripts
handle is a finite decimal), missing values (`NaN`) by `Option ℚ`, and
timestamps by integer seconds.
-/

namespace Sharko

/-! ### Per-axis nearest selection (gridded branch of STEP 6)

`final_dataset.py` lines 187-193 extract gridded values with
`ds[var].sel(lat=..., lon=..., time=..., method='nearest')`.  xarray
resolves each axis label independently through
`pandas.Index.get_indexer(target, method="nearest")`.  The definitions
below translate that pandas code path for a monotonic axis:
`_get_fill_indexer_searchsorted` (exact matches first, then
`searchsorted`, with the descending case handled by searching the
reversed axis) and `_get_nearest_indexer` (compare the `pad` and
`backfill` candidates by absolute distance, the comparison being strict
`<` for an ascending axis and `≤` for a descending one). -/

/-- Number of axis values strictly below `t` (`searchsorted(t, side='left')`
on an ascending axis). -/
def cntLt (a : List ℚ) (t : ℚ) : ℕ := a.countP (fun v => decide (v < t))

/-- Number of axis values at most `t` (`searchsorted(t, side='right')`
on an ascending axis). -/
def cntLe (a : List ℚ) (t : ℚ) : ℕ := a.countP (fun v => decide (v ≤ t))

/-- Position of an exact axis match for `t`, as found first by
`get_indexer` before any inexact method is applied. -/
def exactIdx : List ℚ → ℚ → Option ℕ
  | [], _ => none
  | x :: xs, t => if x = t then some 0 else (exactIdx xs t).map (· + 1)

/-- Translation of `pandas.Index.is_monotonic_increasing` (non-strict; empty and
singleton axes count as increasing). -/
def isMonoIncB : List ℚ → Bool
  | [] => true
  | [_] => true
  | x :: y :: rest => decide (x ≤ y) && isMonoIncB (y :: rest)

/-- Value of the axis at position `i` (out-of-range reads never matter on
the paths proved below). -/
def axVal (a : List ℚ) (i : ℕ) : ℚ := a.getD i 0

/-- Absolute value, `np.abs`, on the rational model of a float. -/
def absQ (x : ℚ) : ℚ := if x < 0 then -x else x

/-- The `pad` indexer of a monotonic axis: translation of
`_get_fill_indexer_searchsorted(target, "pad")`.  Exact matches are kept;
otherwise an ascending axis takes `searchsorted(t, 'left') - 1` and a
descending axis takes `len - searchsorted_reversed(t, 'right') - 1`, with
`none` standing for the sentinel `-1`. -/
def padIdx (a : List ℚ) (t : ℚ) : Option ℕ :=
  match exactIdx a t with
  | some p => some p
  | none =>
    if isMonoIncB a then
      if cntLt a t = 0 then none else some (cntLt a t - 1)
    else
      let k := a.length - cntLe a t
      if k = 0 then none else some (k - 1)

/-- The `backfill` indexer of a monotonic axis: translation of
`_get_fill_indexer_searchsorted(target, "backfill")`; positions equal to
`len` become the sentinel `-1`, modelled as `none`. -/
def backfillIdx (a : List ℚ) (t : ℚ) : Option ℕ :=
  match exactIdx a t with
  | some p => some p
  | none =>
    if isMonoIncB a then
      if cntLe a t = a.length then none else some (cntLe a t)
    else
      let m := a.length - cntLt a t
      if m = a.length then none else some m

/-- The nearest indexer: translation of `pandas.Index._get_nearest_indexer`.
`left`/`right` are the `pad`/`backfill` candidates; the winner is decided
by `np.where(op(left_distances, right_distances) | (right == -1), left, right)`
with `op = lt` for an ascending axis and `op = le` otherwise.  When the
`pad` candidate is the sentinel `-1`, numpy evaluates `self[-1]`, i.e. the
last axis value, for its distance; if that sentinel were selected, xarray's
`sel` would raise `KeyError`, modelled as `none`. -/
def nearestIdx (a : List ℚ) (t : ℚ) : Option ℕ :=
  match padIdx a t, backfillIdx a t with
  | none, none => none
  | some l, none => some l
  | none, some r =>
    let ld := absQ (axVal a (a.length - 1) - t)
    let rd := absQ (axVal a r - t)
    if (if isMonoIncB a then ld < rd else ld ≤ rd) then none else some r
  | some l, some r =>
    let ld := absQ (axVal a l - t)
    let rd := absQ (axVal a r - t)
    if (if isMonoIncB a then ld < rd else ld ≤ rd) then some l else some r

/-- A gridded source: `time`/`lat`/`lon` axes and a scalar cell value per
index triple, `none` standing for a `NaN` cell (missing / land / cloud). -/
structure GriddedField where
  times : List ℚ
  lats : List ℚ
  lons : List ℚ
  value : ℕ → ℕ → ℕ → Option ℚ

/-- The gridded extraction of STEP 6:
`ds[var].sel(lat=…, lon=…, time=…, method='nearest')` for one point.
The outer `Option` is `none` when label resolution fails (xarray
`KeyError`); the inner `Option ℚ` is the cell's possibly-`NaN` value. -/
def selNearestGrid (f : GriddedField) (t la lo : ℚ) : Option (Option ℚ) :=
  match nearestIdx f.times t, nearestIdx f.lats la, nearestIdx f.lons lo with
  | some i, some j, some k => some (f.value i j k)
  | _, _, _ => none

/-! ### Spec-side predicates for the nearest lookup

These state, in the spec's vocabulary, what index the per-axis nearest
selection is supposed to return; the theorems below compare them with the
code-side `nearestIdx`. -/

/-- Spec-side predicate: `i` is a nearest index for `t` on axis `a` with
ties at an exact halfway point resolved toward the larger axis value
(hence the higher index on an ascending axis and the lower index on a
descending one). -/
def IsNearestTieHigh (a : List ℚ) (t : ℚ) (i : ℕ) : Prop :=
  i < a.length ∧ ∀ j, j < a.length →
    absQ (axVal a i - t) < absQ (axVal a j - t) ∨
      (absQ (axVal a i - t) = absQ (axVal a j - t) ∧ axVal a j ≤ axVal a i)

/-- Spec-side predicate: the claim's reading of the tie rule, with ties at
an exact halfway point resolved toward the LOWER index. -/
def IsNearestTieLowIdx (a : List ℚ) (t : ℚ) (i : ℕ) : Prop :=
  i < a.length ∧ ∀ j, j < a.length →
    absQ (axVal a i - t) < absQ (axVal a j - t) ∨
      (absQ (axVal a i - t) = absQ (axVal a j - t) ∧ i ≤ j)

/-- Axis strictly ascending, stated positionally. -/
def StrictAscIdx (a : List ℚ) : Prop :=
  ∀ j, j < a.length → ∀ i, i < j → axVal a i < axVal a j

/-- Axis strictly descending, stated positionally. -/
def StrictDescIdx (a : List ℚ) : Prop :=
  ∀ j, j < a.length → ∀ i, i < j → axVal a j < axVal a i

instance (a : List ℚ) (t : ℚ) (i : ℕ) : Decidable (IsNearestTieHigh a t i) :=
  inferInstanceAs (Decidable (i < a.length ∧ ∀ j, j < a.length →
    absQ (axVal a i - t) < absQ (axVal a j - t) ∨
      (absQ (axVal a i - t) = absQ (axVal a j - t) ∧ axVal a j ≤ axVal a i)))

instance (a : List ℚ) (t : ℚ) (i : ℕ) : Decidable (IsNearestTieLowIdx a t i) :=
  inferInstanceAs (Decidable (i < a.length ∧ ∀ j, j < a.length →
    absQ (axVal a i - t) < absQ (axVal a j - t) ∨
      (absQ (axVal a i - t) = absQ (axVal a j - t) ∧ i ≤ j)))

instance (a : List ℚ) : Decidable (StrictAscIdx a) :=
  inferInstanceAs (Decidable (∀ j, j < a.length → ∀ i, i < j → axVal a i < axVal a j))

instance (a : List ℚ) : Decidable (StrictDescIdx a) :=
  inferInstanceAs (Decidable (∀ j, j < a.length → ∀ i, i < j → axVal a j < axVal a i))

/-! ### Bounding-box cropping (`open_multifile_dataset`)

`final_dataset.py` lines 126-136: the dataset is cropped with
`ds.sel(lat=slice(max(lat_bounds), min(lat_bounds)),
        lon=slice(min(lon_bounds), max(lon_bounds)))`
and the source is skipped (`return None`) when the cropped `lat` or `lon`
dimension has size 0.  xarray resolves a `slice` through pandas
`Index.slice_locs`; for a monotonic axis with unique values
`get_slice_bound(label, side)` is `searchsorted` on the axis
(`_searchsorted_monotonic`, searching the reversed axis when the axis is
descending), and the exact-match branch of `get_slice_bound` returns the
same position. -/

/-- Translation of `Index.get_slice_bound(label, side="left")` for a strictly monotonic
axis. -/
def sliceBoundLeft (a : List ℚ) (label : ℚ) : ℕ :=
  if isMonoIncB a then cntLt a label else a.length - cntLe a label

/-- Translation of `Index.get_slice_bound(label, side="right")` for a strictly monotonic
axis. -/
def sliceBoundRight (a : List ℚ) (label : ℚ) : ℕ :=
  if isMonoIncB a then cntLe a label else a.length - cntLt a label

/-- Label slicing `axis[start:stop]`: the positions
`[get_slice_bound(start,'left'), get_slice_bound(stop,'right'))`. -/
def cropAxis (a : List ℚ) (startLabel stopLabel : ℚ) : List ℚ :=
  (a.drop (sliceBoundLeft a startLabel)).take
    (sliceBoundRight a stopLabel - sliceBoundLeft a startLabel)

/-- The cropping step of `open_multifile_dataset`: crop the two spatial
axes and return `none` (source skipped, no error) when either cropped
axis is empty. -/
def open_multifile_crop (lats lons : List ℚ) (latB lonB : ℚ × ℚ) :
    Option (List ℚ × List ℚ) :=
  let cl := cropAxis lats (max latB.1 latB.2) (min latB.1 latB.2)
  let co := cropAxis lons (min lonB.1 lonB.2) (max lonB.1 lonB.2)
  if cl.length = 0 ∨ co.length = 0 then none else some (cl, co)

/-! ### Track extraction (`_extract_track_data_with_kdtree`)

`final_dataset.py` lines 143-161: the satellite samples' `(time-seconds,
lat, lon)` triples are stacked raw (no unit scaling) into a
`scipy.spatial.KDTree`; each lookup point's triple is queried with `k=1`
and the variable is read at the returned index.  `KDTree.query` returns
an index of a sample at minimal Euclidean distance; minimising Euclidean
distance is the same as minimising its square, which keeps the model in
`ℚ`. -/

/-- Squared Euclidean distance in the raw `(seconds, lat, lon)` space. -/
def sqDist (p q : ℚ × ℚ × ℚ) : ℚ :=
  (p.1 - q.1)^2 + (p.2.1 - q.2.1)^2 + (p.2.2 - q.2.2)^2

/-- A track source: irregular samples of `(time-seconds, lat, lon)` with a
value (`none` = `NaN`). -/
structure TrackField where
  samples : List ((ℚ × ℚ × ℚ) × Option ℚ)

/-- Translation of `_extract_track_data_with_kdtree` for one lookup point: the value of a
sample at minimal (unscaled) Euclidean distance; `none` only when the
track is empty (`KDTree` construction fails on an empty point set). -/
def extract_track_data_with_kdtree (tf : TrackField) (q : ℚ × ℚ × ℚ) :
    Option (Option ℚ) :=
  (tf.samples.argmin (fun s => sqDist s.1 q)).map (fun s => s.2)

/-! ### Pseudo-absence sampling (STEP 3)

`final_dataset.py` lines 53-66.  `np.random.uniform(lo, hi)` draws from
the half-open interval `[lo, hi)`; it is modelled by mapping a draw
`u ∈ [0,1)` to `lo + u·(hi-lo)`.  `np.random.randint(lo, hi)` draws
integers from `lo` (inclusive) to `hi` (EXCLUSIVE); it is modelled by
mapping an arbitrary generator output `g : ℕ` to `lo + g % (hi-lo)`. -/

/-- One `np.random.uniform(lo, hi)` draw, parameterised by the generator
output `u ∈ [0,1)`. -/
def uniformDraw (lo hi : ℚ) (u : ℚ) : ℚ := lo + u * (hi - lo)

/-- One `np.random.randint(lo, hi)` draw, parameterised by the generator
output `g : ℕ`; for `lo < hi` the result lies in `[lo, hi)`. -/
def randint (lo hi : ℤ) (g : ℕ) : ℤ := lo + (g : ℤ) % (hi - lo)

/-- Every timestamp `np.random.randint(lo, hi)` can produce. -/
def randintSupport (lo hi : ℤ) : Set ℤ := Set.range (randint lo hi)

/-- A combined point: timestamp in integer seconds plus position. -/
structure Pt where
  time : ℤ
  lat : ℚ
  lon : ℚ
deriving DecidableEq

/-- Column minimum, `Series.min()` (only ever applied to non-empty data). -/
def colMin : List ℚ → ℚ
  | [] => 0
  | x :: xs => xs.foldl min x

/-- Column maximum, `Series.max()` (only ever applied to non-empty data). -/
def colMax : List ℚ → ℚ
  | [] => 0
  | x :: xs => xs.foldl max x

/-- STEP 3: with at least one presence record, draw
`len(presence_data) * 2` pseudo-absence points, latitude and longitude
uniform over the presence bounding box and timestamps
`np.random.randint(start_ts, end_ts)`; with no presence records, the
empty frame. -/
def pseudoAbsence (pres : List Pt) (startTs endTs : ℤ)
    (uLat uLon : ℕ → ℚ) (g : ℕ → ℕ) : List Pt :=
  if 0 < pres.length then
    (List.range (pres.length * 2)).map (fun i =>
      { time := randint startTs endTs (g i)
        lat := uniformDraw (colMin (pres.map Pt.lat)) (colMax (pres.map Pt.lat)) (uLat i)
        lon := uniformDraw (colMin (pres.map Pt.lon)) (colMax (pres.map Pt.lon)) (uLon i) })
  else []

/-- STEP 4: concatenate presence rows (`presence = 1`) and pseudo-absence
rows (`presence = 0`). -/
def combinedPoints (pres pseudo : List Pt) : List (Pt × ℕ) :=
  pres.map (fun p => (p, 1)) ++ pseudo.map (fun p => (p, 0))

/-! ### Per-source processing loop, dropna, column order, output (STEPS 6-8)

Each source's load-and-extract is summarised by its outcome:
`.error ()` – some exception was raised (caught by the per-source
`try/except`, lines 176-200); `.ok none` – `open_multifile_dataset`
returned `None` (no overlap, `continue`); `.ok (some f)` – extraction
succeeded, giving a value (possibly `NaN`) per point. -/

/-- Named outcome of loading+extracting one source. -/
abbrev SourceSpec := String × Except Unit (Option (Pt → Option ℚ))

/-- The per-source loop: append one column per source whose load and
extraction succeeded; failed and non-overlapping sources contribute
nothing and abort nothing. -/
def successes (srcs : List SourceSpec) : List (String × (Pt → Option ℚ)) :=
  srcs.foldl (fun acc s =>
    match s.2 with
    | .ok (some f) => acc ++ [(s.1, f)]
    | _ => acc) []

/-- A row survives `dropna` iff every attached column holds a value.  The
remaining columns (`time`, `lat`, `lon`, `presence`, `day_sin`,
`day_cos`) are never `NaN`: times/positions were already `dropna`-ed at
load and `sin`/`cos` are total. -/
def rowComplete (succ : List (String × (Pt → Option ℚ))) (row : Pt × ℕ) : Bool :=
  succ.all (fun s => (s.2 row.1).isSome)

/-- Translation of `final_dataset.dropna(inplace=True)` (line 211). -/
def dropnaRows (succ : List (String × (Pt → Option ℚ))) (rows : List (Pt × ℕ)) :
    List (Pt × ℕ) :=
  rows.filter (rowComplete succ)

/-- Columns of `combined_points`: `time`, `lat`, `lon` from the occurrence
frame plus the `presence` label added in STEP 4. -/
def baseColumns : List String := ["time", "lat", "lon", "presence"]

/-- The cyclical features appended in STEP 7 (after `day_of_year` is
dropped again). -/
def dayColumns : List String := ["day_sin", "day_cos"]

/-- Translation of `cols.insert(len(cols), cols.pop(cols.index(name)))`: move `name` to
the end; `none` models the `ValueError` of `list.index` when the name is
absent (unreachable on the pipeline's inputs). -/
def moveColToEnd (cols : List String) (name : String) : Option (List String) :=
  match cols.indexOf? name with
  | some i => some (cols.eraseIdx i ++ [cols.getD i name])
  | none => none

/-- Column list of the written table: base columns, one column per
successful source in loop order, the day features, with `presence` moved
to the very end. -/
def finalColumns (succNames : List String) : Option (List String) :=
  moveColToEnd (baseColumns ++ succNames ++ dayColumns) "presence"

/-- The persisted artifact of a successful run. -/
structure OutputFile where
  filename : String
  compression : String
  columns : List String
  rows : List (Pt × ℕ)
deriving DecidableEq

/-- The whole `final_dataset.py` data path after loading: generate
pseudo-absences, combine, attach sources, drop incomplete rows, and write
`model_training_dataset.csv.gz` (gzip) when the remaining table is
non-empty; `none` means no output file is produced. -/
def final_dataset_pipeline (pres : List Pt) (startTs endTs : ℤ)
    (uLat uLon : ℕ → ℚ) (g : ℕ → ℕ) (srcs : List SourceSpec) :
    Option OutputFile :=
  let pseudo := pseudoAbsence pres startTs endTs uLat uLon g
  let combined := combinedPoints pres pseudo
  if 0 < combined.length then
    let succ := successes srcs
    let kept := dropnaRows succ combined
    if kept.length = 0 then none
    else
      match finalColumns (succ.map Prod.fst) with
      | some cols => some
          { filename := "model_training_dataset.csv.gz"
            compression := "gzip"
            columns := cols
            rows := kept }
      | none => none
  else none

/-! ### The SST downloader (`SST_script_8day.py`, `download_nc_file`)

One attempt's observable outcome, covering every branch of the `for
attempt in range(1, retries + 1)` loop body. -/

/-- What one HTTP attempt for the file returns. -/
inductive HttpAttempt
  /-- The response's `Content-Type` contains `text/html`. -/
  | htmlPage
  /-- Status 200; the written file ends up with this size in bytes. -/
  | success (size : ℕ)
  /-- Status 404. -/
  | notFound
  /-- Any other status (5xx, 429, ...). -/
  | otherStatus
  /-- `requests.exceptions.RequestException` (network error, timeout). -/
  | netError
deriving DecidableEq

/-- Observable result of `download_nc_file`: the returned path (or
`None`), the lines appended to `missing_files.txt`, the `time.sleep`
delays performed, and the number of HTTP requests issued. -/
structure DownloadResult where
  result : Option String
  logged : List String
  delays : List ℕ
  attempts : ℕ
deriving DecidableEq

/-- The retry loop of `download_nc_file`, with `remaining` attempts left
and `resp i` the outcome of the `i`-th request.  An HTML page or a
too-small 200-download returns `None` with no log entry; a 404 logs and
returns `None`; any other status or a network error sleeps 5 seconds and
retries; exhausting all attempts logs `(Max retries reached)`. -/
def downloadLoop (fname savePath : String) (resp : ℕ → HttpAttempt) :
    ℕ → ℕ → DownloadResult
  | 0, _ =>
    { result := none, logged := [fname ++ " (Max retries reached)"]
      delays := [], attempts := 0 }
  | n + 1, i =>
    match resp i with
    | .htmlPage =>
      { result := none, logged := [], delays := [], attempts := 1 }
    | .success size =>
      if 10000 < size then
        { result := some savePath, logged := [], delays := [], attempts := 1 }
      else
        { result := none, logged := [], delays := [], attempts := 1 }
    | .notFound =>
      { result := none, logged := [fname ++ " (404 Not Found)"]
        delays := [], attempts := 1 }
    | .otherStatus =>
      let r := downloadLoop fname savePath resp n (i + 1)
      { result := r.result, logged := r.logged
        delays := 5 :: r.delays, attempts := r.attempts + 1 }
    | .netError =>
      let r := downloadLoop fname savePath resp n (i + 1)
      { result := r.result, logged := r.logged
        delays := 5 :: r.delays, attempts := r.attempts + 1 }

/-- Translation of `download_nc_file(start_date, retries=3)`: skip the download entirely
when the file already exists locally with size above 10000 bytes,
otherwise run the retry loop. -/
def download_nc_file (fname savePath : String) (existsLocal : Bool)
    (localSize : ℕ) (resp : ℕ → HttpAttempt) (retries : ℕ) : DownloadResult :=
  if existsLocal ∧ 10000 < localSize then
    { result := some savePath, logged := [], delays := [], attempts := 0 }
  else downloadLoop fname savePath resp retries 1

/-! ## Helper lemmas -/

theorem absQ_nonneg (x : ℚ) : 0 ≤ absQ x := by
  unfold absQ; split <;> linarith

theorem absQ_eq_zero_iff (x : ℚ) : absQ x = 0 ↔ x = 0 := by
  unfold absQ; split <;> constructor <;> intro h <;> linarith

theorem absQ_of_nonneg {x : ℚ} (h : 0 ≤ x) : absQ x = x := by
  unfold absQ; split <;> linarith

theorem absQ_of_nonpos {x : ℚ} (h : x ≤ 0) : absQ x = -x := by
  unfold absQ; split
  · rfl
  · have hx : x = 0 := le_antisymm h (not_lt.1 (by assumption))
    simp [hx]

theorem axVal_cons_succ (x : ℚ) (xs : List ℚ) (i : ℕ) :
    axVal (x :: xs) (i + 1) = axVal xs i := by
  simp [axVal]

theorem axVal_cons_zero (x : ℚ) (xs : List ℚ) : axVal (x :: xs) 0 = x := by
  simp [axVal]

/-- Counting a prefix-closed predicate on an axis gives the rank: position
`i` satisfies the predicate exactly when `i` is below the count. -/
theorem countP_rank :
    ∀ (a : List ℚ) (p : ℚ → Bool),
    (∀ j, j < a.length → ∀ i, i ≤ j → p (axVal a j) = true → p (axVal a i) = true) →
    ∀ i, i < a.length → (p (axVal a i) = true ↔ i < a.countP p)
  | [], _, _, i, hi => absurd hi (by simp)
  | x :: xs, p, hcl, i, hi => by
    have hxs : ∀ j, j < xs.length → ∀ i2, i2 ≤ j →
        p (axVal xs j) = true → p (axVal xs i2) = true := by
      intro j hj i2 hi2 hp
      have h := hcl (j + 1) (by simpa using Nat.succ_lt_succ hj) (i2 + 1)
        (Nat.succ_le_succ hi2)
      rw [axVal_cons_succ, axVal_cons_succ] at h
      exact h hp
    by_cases hp : p x = true
    · rw [List.countP_cons_of_pos p xs hp]
      cases i with
      | zero => simp [axVal_cons_zero, hp]
      | succ i' =>
        rw [axVal_cons_succ]
        have hi' : i' < xs.length := by simpa using hi
        rw [countP_rank xs p hxs i' hi']
        omega
    · have hall : ∀ k, k < (x :: xs).length → ¬ p (axVal (x :: xs) k) = true := by
        intro k hk hpk
        exact hp (hcl k hk 0 (Nat.zero_le k) hpk)
      have hzero : (x :: xs).countP p = 0 := by
        rw [List.countP_eq_zero]
        intro v hv
        rcases List.mem_iff_getElem.1 hv with ⟨k, hk, rfl⟩
        have := hall k hk
        rwa [axVal, List.getD_eq_getElem _ 0 hk] at this
      rw [hzero]
      simp [hall i hi]

theorem rank_lt_asc {a : List ℚ} (t : ℚ) (hasc : StrictAscIdx a) :
    ∀ i, i < a.length → (axVal a i < t ↔ i < cntLt a t) := by
  intro i hi
  have h := countP_rank a (fun v => decide (v < t)) ?_ i hi
  · simpa using h
  · intro j hj i2 hi2 hp
    simp only [decide_eq_true_eq] at hp ⊢
    rcases Nat.lt_or_ge i2 j with h2 | h2
    · exact lt_trans (hasc j hj i2 h2) hp
    · have : i2 = j := le_antisymm hi2 h2
      rwa [this]

theorem rank_le_asc {a : List ℚ} (t : ℚ) (hasc : StrictAscIdx a) :
    ∀ i, i < a.length → (axVal a i ≤ t ↔ i < cntLe a t) := by
  intro i hi
  have h := countP_rank a (fun v => decide (v ≤ t)) ?_ i hi
  · simpa using h
  · intro j hj i2 hi2 hp
    simp only [decide_eq_true_eq] at hp ⊢
    rcases Nat.lt_or_ge i2 j with h2 | h2
    · exact le_of_lt (lt_of_lt_of_le (hasc j hj i2 h2) hp)
    · have : i2 = j := le_antisymm hi2 h2
      rwa [this]

theorem rank_gt_desc {a : List ℚ} (t : ℚ) (hdesc : StrictDescIdx a) :
    ∀ i, i < a.length → (t < axVal a i ↔ i < a.length - cntLe a t) := by
  intro i hi
  have hcount : a.length = cntLe a t + a.countP (fun v => decide (t < v)) := by
    have h := List.length_eq_countP_add_countP (fun v => decide (v ≤ t)) a
    have hc : a.countP (fun v => decide (¬ decide (v ≤ t) = true)) =
        a.countP (fun v => decide (t < v)) := by
      apply List.countP_congr
      intro v _
      simp [not_le]
    rw [hc] at h
    exact h
  have h := countP_rank a (fun v => decide (t < v)) ?_ i hi
  · simp only [decide_eq_true_eq] at h
    rw [h]
    omega
  · intro j hj i2 hi2 hp
    simp only [decide_eq_true_eq] at hp ⊢
    rcases Nat.lt_or_ge i2 j with h2 | h2
    · exact lt_trans hp (hdesc j hj i2 h2)
    · have : i2 = j := le_antisymm hi2 h2
      rwa [this]

theorem rank_ge_desc {a : List ℚ} (t : ℚ) (hdesc : StrictDescIdx a) :
    ∀ i, i < a.length → (t ≤ axVal a i ↔ i < a.length - cntLt a t) := by
  intro i hi
  have hcount : a.length = cntLt a t + a.countP (fun v => decide (t ≤ v)) := by
    have h := List.length_eq_countP_add_countP (fun v => decide (v < t)) a
    have hc : a.countP (fun v => decide (¬ decide (v < t) = true)) =
        a.countP (fun v => decide (t ≤ v)) := by
      apply List.countP_congr
      intro v _
      simp [not_lt]
    rw [hc] at h
    exact h
  have h := countP_rank a (fun v => decide (t ≤ v)) ?_ i hi
  · simp only [decide_eq_true_eq] at h
    rw [h]
    omega
  · intro j hj i2 hi2 hp
    simp only [decide_eq_true_eq] at hp ⊢
    rcases Nat.lt_or_ge i2 j with h2 | h2
    · exact le_of_lt (lt_of_le_of_lt hp (hdesc j hj i2 h2))
    · have : i2 = j := le_antisymm hi2 h2
      rwa [this]

theorem cntLt_le_length (a : List ℚ) (t : ℚ) : cntLt a t ≤ a.length :=
  List.countP_le_length _

theorem cntLe_le_length (a : List ℚ) (t : ℚ) : cntLe a t ≤ a.length :=
  List.countP_le_length _

theorem exactIdx_eq_some {a : List ℚ} {t : ℚ} {p : ℕ} (h : exactIdx a t = some p) :
    p < a.length ∧ axVal a p = t := by
  induction a generalizing p with
  | nil => simp [exactIdx] at h
  | cons x xs ih =>
    rw [exactIdx] at h
    by_cases hx : x = t
    · rw [if_pos hx] at h
      cases h
      simpa [axVal_cons_zero] using hx
    · rw [if_neg hx] at h
      rcases Option.map_eq_some'.1 h with ⟨q, hq, rfl⟩
      have hih := ih hq
      refine ⟨by simpa using Nat.succ_lt_succ hih.1, ?_⟩
      rw [axVal_cons_succ]
      exact hih.2

theorem exactIdx_eq_none {a : List ℚ} {t : ℚ} (h : exactIdx a t = none) :
    ∀ i, i < a.length → axVal a i ≠ t := by
  induction a with
  | nil => intro i hi; simp at hi
  | cons x xs ih =>
    rw [exactIdx] at h
    by_cases hx : x = t
    · rw [if_pos hx] at h; cases h
    · rw [if_neg hx] at h
      intro i hi
      cases i with
      | zero => simpa [axVal_cons_zero] using hx
      | succ i' =>
        rw [axVal_cons_succ]
        exact ih (Option.map_eq_none'.1 h) i' (by simpa using hi)

theorem cntLe_eq_cntLt_of_no_exact {a : List ℚ} {t : ℚ}
    (h : ∀ i, i < a.length → axVal a i ≠ t) : cntLe a t = cntLt a t := by
  apply List.countP_congr
  intro v hv
  rcases List.mem_iff_getElem.1 hv with ⟨k, hk, rfl⟩
  have hne : a[k] ≠ t := by
    have := h k hk
    rwa [axVal, List.getD_eq_getElem _ 0 hk] at this
  simp only [decide_eq_true_eq]
  constructor
  · intro hle; exact lt_of_le_of_ne hle hne
  · exact le_of_lt

theorem isMonoIncB_of_strictAsc {a : List ℚ} (h : StrictAscIdx a) :
    isMonoIncB a = true := by
  induction a with
  | nil => rfl
  | cons x xs ih =>
    cases xs with
    | nil => rfl
    | cons y ys =>
      rw [isMonoIncB]
      have hxy : x < y := by
        have := h 1 (by simp) 0 (by omega)
        simpa [axVal_cons_zero, axVal_cons_succ] using this
      have htail : StrictAscIdx (y :: ys) := by
        intro j hj i hij
        have := h (j + 1) (by simpa using Nat.succ_lt_succ hj) (i + 1)
          (Nat.succ_lt_succ hij)
        rwa [axVal_cons_succ, axVal_cons_succ] at this
      rw [ih htail]
      simp [le_of_lt hxy]

theorem absQ_pos {x : ℚ} (h : x ≠ 0) : 0 < absQ x :=
  lt_of_le_of_ne (absQ_nonneg x) (fun he => h ((absQ_eq_zero_iff x).1 he.symm))

theorem isMonoIncB_eq_false_of_strictDesc {a : List ℚ} (h : StrictDescIdx a)
    (hlen : 2 ≤ a.length) : isMonoIncB a = false := by
  cases a with
  | nil => simp at hlen
  | cons x xs =>
    cases xs with
    | nil => simp at hlen
    | cons y ys =>
      rw [isMonoIncB]
      have hyx : y < x := by
        have := h 1 (by simp) 0 (by omega)
        simpa [axVal_cons_zero, axVal_cons_succ] using this
      simp [not_le.2 hyx]

/-- Distinct positions of a strictly monotonic axis hold distinct values. -/
theorem axVal_inj_of_strict {a : List ℚ}
    (hmono : StrictAscIdx a ∨ StrictDescIdx a) :
    ∀ i j, i < a.length → j < a.length → axVal a i = axVal a j → i = j := by
  intro i j hi hj heq
  rcases Nat.lt_trichotomy i j with hlt | he | hgt
  · rcases hmono with hasc | hdesc
    · exact absurd heq (ne_of_lt (hasc j hj i hlt))
    · exact absurd heq (ne_of_gt (hdesc j hj i hlt))
  · exact he
  · rcases hmono with hasc | hdesc
    · exact absurd heq (ne_of_gt (hasc i hi j hgt))
    · exact absurd heq (ne_of_lt (hdesc i hi j hgt))

/-- Nearest selection on an exact axis match returns that position. -/
theorem nearestIdx_spec_exact {a : List ℚ} {t : ℚ} {p : ℕ}
    (hmono : StrictAscIdx a ∨ StrictDescIdx a) (hex : exactIdx a t = some p) :
    nearestIdx a t = some p ∧ IsNearestTieHigh a t p := by
  obtain ⟨hp_lt, hp_eq⟩ := exactIdx_eq_some hex
  have hpad : padIdx a t = some p := by rw [padIdx, hex]
  have hbak : backfillIdx a t = some p := by rw [backfillIdx, hex]
  have hnear : nearestIdx a t = some p := by
    simp [nearestIdx, hpad, hbak]
  refine ⟨hnear, hp_lt, ?_⟩
  intro j hj
  have hdp : absQ (axVal a p - t) = 0 := by
    rw [hp_eq]; simpa using (absQ_eq_zero_iff 0).2 rfl
  by_cases hjt : axVal a j = t
  · have : j = p := axVal_inj_of_strict hmono j p hj hp_lt (by rw [hjt, hp_eq])
    subst this
    exact Or.inr ⟨rfl, le_refl _⟩
  · left
    rw [hdp]
    exact absQ_pos (sub_ne_zero.2 hjt)

/-- Nearest selection on a strictly ascending axis: the returned index is
distance-minimal, ties falling toward the larger axis value. -/
theorem nearestIdx_spec_asc {a : List ℚ} (t : ℚ) (hne : a ≠ [])
    (hasc : StrictAscIdx a) :
    ∃ i, nearestIdx a t = some i ∧ IsNearestTieHigh a t i := by
  have hn : 0 < a.length := List.length_pos.2 hne
  have hinc : isMonoIncB a = true := isMonoIncB_of_strictAsc hasc
  cases hex : exactIdx a t with
  | some p => exact ⟨p, nearestIdx_spec_exact (Or.inl hasc) hex⟩
  | none =>
    have hnone := exactIdx_eq_none hex
    have hLeLt : cntLe a t = cntLt a t := cntLe_eq_cntLt_of_no_exact hnone
    set c := cntLt a t with hc
    have hlow : ∀ j, j < a.length → j < c → axVal a j < t := by
      intro j hj hjc
      exact (rank_lt_asc t hasc j hj).2 hjc
    have hhigh : ∀ j, j < a.length → c ≤ j → t < axVal a j := by
      intro j hj hjc
      have hnlt : ¬ axVal a j < t := by
        rw [rank_lt_asc t hasc j hj]; omega
      exact lt_of_le_of_ne (not_lt.1 hnlt) (Ne.symm (hnone j hj))
    have hcle : c ≤ a.length := cntLt_le_length a t
    rcases Nat.eq_zero_or_pos c with hc0 | hcpos
    · -- every axis value lies above t: nearest is position 0
      have hpad : padIdx a t = none := by
        rw [padIdx, hex]
        simp [hinc, hc0, ← hc]
      have hbak : backfillIdx a t = some 0 := by
        rw [backfillIdx, hex]
        simp only [hinc, if_true]
        rw [hLeLt, hc0, if_neg (by omega)]
      -- the pad candidate is the sentinel: the comparison keeps position 0
      have h0 : t < axVal a 0 := hhigh 0 hn (by omega)
      have hlast : t < axVal a (a.length - 1) := hhigh _ (by omega) (by omega)
      have hle : axVal a 0 ≤ axVal a (a.length - 1) := by
        rcases Nat.eq_zero_or_pos (a.length - 1) with h1 | h1
        · rw [h1]
        · exact le_of_lt (hasc _ (by omega) 0 h1)
      have hnear : nearestIdx a t = some 0 := by
        rw [nearestIdx, hpad, hbak]
        simp only [hinc, if_true]
        rw [if_neg]
        rw [not_lt, absQ_of_nonneg (by linarith), absQ_of_nonneg (by linarith)]
        linarith
      refine ⟨0, hnear, hn, ?_⟩
      intro j hj
      rcases Nat.eq_zero_or_pos j with rfl | hjpos
      · exact Or.inr ⟨rfl, le_refl _⟩
      · left
        have hj0 : axVal a 0 < axVal a j := hasc j hj 0 hjpos
        have hjt : t < axVal a j := hhigh j hj (by omega)
        rw [absQ_of_nonneg (by linarith), absQ_of_nonneg (by linarith)]
        linarith
    · rcases Nat.lt_or_ge c a.length with hclt | hcge
      · -- t lies between positions c-1 and c
        have hpad : padIdx a t = some (c - 1) := by
          rw [padIdx, hex]
          simp only [hinc, if_true]
          rw [if_neg (by omega)]
        have hbak : backfillIdx a t = some c := by
          rw [backfillIdx, hex]
          simp only [hinc, if_true]
          rw [hLeLt, if_neg (by omega)]
        have hclow : axVal a (c - 1) < t := hlow _ (by omega) (by omega)
        have hchigh : t < axVal a c := hhigh c hclt (le_refl c)
        have hld : absQ (axVal a (c - 1) - t) = t - axVal a (c - 1) := by
          rw [absQ_of_nonpos (by linarith)]; ring
        have hrd : absQ (axVal a c - t) = axVal a c - t := by
          rw [absQ_of_nonneg (by linarith)]
        by_cases hcmp : absQ (axVal a (c - 1) - t) < absQ (axVal a c - t)
        · -- pad is strictly closer: position c-1 wins
          have hnear : nearestIdx a t = some (c - 1) := by
            rw [nearestIdx, hpad, hbak]
            simp only [hinc, if_true]
            rw [if_pos hcmp]
          refine ⟨c - 1, hnear, by omega, ?_⟩
          intro j hj
          rcases Nat.lt_or_ge j c with hjc | hjc
          · rcases Nat.lt_or_ge j (c - 1) with hjc1 | hjc1
            · left
              have hjlow : axVal a j < axVal a (c - 1) := hasc _ (by omega) j hjc1
              have hjt : axVal a j < t := hlow j hj hjc
              rw [hld, absQ_of_nonpos (by linarith)]
              linarith
            · have : j = c - 1 := by omega
              subst this
              exact Or.inr ⟨rfl, le_refl _⟩
          · left
            have hjt : t < axVal a j := hhigh j hj (by omega)
            have hjge : axVal a c ≤ axVal a j := by
              rcases Nat.lt_or_ge c j with hcj | hcj
              · exact le_of_lt (hasc j hj c hcj)
              · have : j = c := by omega
                rw [this]
            rw [hld, absQ_of_nonneg (show (0:ℚ) ≤ axVal a j - t by linarith)]
            rw [hld, hrd] at hcmp
            linarith
        · -- tie or backfill closer: position c wins (the larger value)
          have hnear : nearestIdx a t = some c := by
            rw [nearestIdx, hpad, hbak]
            simp only [hinc, if_true]
            rw [if_neg hcmp]
          refine ⟨c, hnear, hclt, ?_⟩
          intro j hj
          rcases Nat.lt_or_ge j c with hjc | hjc
          · rcases Nat.lt_or_ge j (c - 1) with hjc1 | hjc1
            · left
              have hjlow : axVal a j < axVal a (c - 1) := hasc _ (by omega) j hjc1
              rw [hrd, absQ_of_nonpos (by linarith [hlow j hj hjc])]
              rw [hld, hrd, not_lt] at hcmp
              linarith
            · have : j = c - 1 := by omega
              subst this
              rw [hld, hrd, not_lt] at hcmp
              rcases lt_or_eq_of_le hcmp with hstrict | htie
              · left
                rw [hld, hrd]
                exact hstrict
              · right
                rw [hld, hrd]
                exact ⟨htie, le_of_lt (by linarith)⟩
          · rcases Nat.lt_or_ge c j with hcj | hcj
            · left
              have : axVal a c < axVal a j := hasc j hj c hcj
              have hjt : t < axVal a j := hhigh j hj (by omega)
              rw [hrd, absQ_of_nonneg (by linarith)]
              linarith
            · have : j = c := by omega
              subst this
              exact Or.inr ⟨rfl, le_refl _⟩
      · -- every axis value lies below t: nearest is the last position
        have hceq : c = a.length := le_antisymm hcle hcge
        have hpad : padIdx a t = some (c - 1) := by
          rw [padIdx, hex]
          simp only [hinc, if_true]
          rw [if_neg (by omega)]
        have hbak : backfillIdx a t = none := by
          rw [backfillIdx, hex]
          simp only [hinc, if_true]
          rw [hLeLt, if_pos hceq]
        have hnear : nearestIdx a t = some (c - 1) := by
          rw [nearestIdx, hpad, hbak]
        refine ⟨c - 1, hnear, by omega, ?_⟩
        intro j hj
        rcases Nat.lt_or_ge j (c - 1) with hjc1 | hjc1
        · left
          have hjlow : axVal a j < axVal a (c - 1) := hasc _ (by omega) j hjc1
          have hjt : axVal a j < t := hlow j hj (by omega)
          have hct : axVal a (c - 1) < t := hlow _ (by omega) (by omega)
          rw [absQ_of_nonpos (by linarith), absQ_of_nonpos (by linarith)]
          linarith
        · have : j = c - 1 := by omega
          subst this
          exact Or.inr ⟨rfl, le_refl _⟩

/-- Nearest selection on a strictly descending axis of at least two
values: the returned index is distance-minimal, ties falling toward the
larger axis value (the lower position). -/
theorem nearestIdx_spec_desc {a : List ℚ} (t : ℚ) (hlen2 : 2 ≤ a.length)
    (hdesc : StrictDescIdx a) :
    ∃ i, nearestIdx a t = some i ∧ IsNearestTieHigh a t i := by
  have hn : 0 < a.length := by omega
  have hm : isMonoIncB a = false := isMonoIncB_eq_false_of_strictDesc hdesc hlen2
  cases hex : exactIdx a t with
  | some p => exact ⟨p, nearestIdx_spec_exact (Or.inr hdesc) hex⟩
  | none =>
    have hnone := exactIdx_eq_none hex
    have hLeLt : cntLe a t = cntLt a t := cntLe_eq_cntLt_of_no_exact hnone
    set k := a.length - cntLe a t with hk
    have hhigh : ∀ j, j < a.length → j < k → t < axVal a j := by
      intro j hj hjk
      exact (rank_gt_desc t hdesc j hj).2 hjk
    have hlow : ∀ j, j < a.length → k ≤ j → axVal a j < t := by
      intro j hj hjk
      have hnge : ¬ t ≤ axVal a j := by
        rw [rank_ge_desc t hdesc j hj, ← hLeLt]
        omega
      exact not_le.1 hnge
    have hkle : k ≤ a.length := by omega
    rcases Nat.eq_zero_or_pos k with hk0 | hkpos
    · -- every axis value lies below t: nearest is position 0 (largest value)
      have hpad : padIdx a t = none := by
        rw [padIdx, hex]
        simp only [hm, Bool.false_eq_true, if_false]
        rw [← hk, hk0, if_pos rfl]
      have hbak : backfillIdx a t = some 0 := by
        rw [backfillIdx, hex]
        simp only [hm, Bool.false_eq_true, if_false]
        rw [← hLeLt, ← hk, hk0, if_neg (by omega)]
      have h0 : axVal a 0 < t := hlow 0 hn (by omega)
      have hlast : axVal a (a.length - 1) < t := hlow _ (by omega) (by omega)
      have hgt : axVal a (a.length - 1) < axVal a 0 :=
        hdesc (a.length - 1) (by omega) 0 (by omega)
      have hnear : nearestIdx a t = some 0 := by
        rw [nearestIdx, hpad, hbak]
        simp only [hm, Bool.false_eq_true, if_false]
        rw [if_neg]
        rw [not_le, absQ_of_nonpos (by linarith), absQ_of_nonpos (by linarith)]
        linarith
      refine ⟨0, hnear, hn, ?_⟩
      intro j hj
      rcases Nat.eq_zero_or_pos j with rfl | hjpos
      · exact Or.inr ⟨rfl, le_refl _⟩
      · left
        have hj0 : axVal a j < axVal a 0 := hdesc j hj 0 hjpos
        have hjt : axVal a j < t := hlow j hj (by omega)
        rw [absQ_of_nonpos (by linarith), absQ_of_nonpos (by linarith)]
        linarith
    · rcases Nat.lt_or_ge k a.length with hklt | hkge
      · -- t lies between positions k-1 and k
        have hpad : padIdx a t = some (k - 1) := by
          rw [padIdx, hex]
          simp only [hm, Bool.false_eq_true, if_false]
          rw [← hk, if_neg (by omega)]
        have hbak : backfillIdx a t = some k := by
          rw [backfillIdx, hex]
          simp only [hm, Bool.false_eq_true, if_false]
          rw [← hLeLt, ← hk, if_neg (by omega)]
        have hkhigh : t < axVal a (k - 1) := hhigh _ (by omega) (by omega)
        have hklow : axVal a k < t := hlow k hklt (le_refl k)
        have hld : absQ (axVal a (k - 1) - t) = axVal a (k - 1) - t := by
          rw [absQ_of_nonneg (by linarith)]
        have hrd : absQ (axVal a k - t) = t - axVal a k := by
          rw [absQ_of_nonpos (by linarith)]; ring
        by_cases hcmp : absQ (axVal a (k - 1) - t) ≤ absQ (axVal a k - t)
        · -- pad at least as close: position k-1 wins (the larger value)
          have hnear : nearestIdx a t = some (k - 1) := by
            rw [nearestIdx, hpad, hbak]
            simp only [hm, Bool.false_eq_true, if_false]
            rw [if_pos hcmp]
          refine ⟨k - 1, hnear, by omega, ?_⟩
          intro j hj
          rcases Nat.lt_or_ge j k with hjk | hjk
          · rcases Nat.lt_or_ge j (k - 1) with hjk1 | hjk1
            · left
              have hjhigh : axVal a (k - 1) < axVal a j := hdesc _ (by omega) j hjk1
              have hjt : t < axVal a j := hhigh j hj hjk
              rw [hld, absQ_of_nonneg (by linarith)]
              linarith
            · have : j = k - 1 := by omega
              subst this
              exact Or.inr ⟨rfl, le_refl _⟩
          · rcases Nat.lt_or_ge k j with hkj | hkj
            · left
              have hjlow : axVal a j < axVal a k := hdesc j hj k hkj
              rw [hld, absQ_of_nonpos (by linarith [hlow j hj hjk])]
              rw [hld, hrd] at hcmp
              linarith
            · have : j = k := by omega
              subst this
              rw [hld, hrd] at hcmp ⊢
              rcases lt_or_eq_of_le hcmp with hstrict | htie
              · exact Or.inl hstrict
              · exact Or.inr ⟨htie, le_of_lt (by linarith)⟩
        · -- backfill strictly closer: position k wins
          rw [not_le] at hcmp
          have hnear : nearestIdx a t = some k := by
            rw [nearestIdx, hpad, hbak]
            simp only [hm, Bool.false_eq_true, if_false]
            rw [if_neg (not_le.2 hcmp)]
          refine ⟨k, hnear, hklt, ?_⟩
          intro j hj
          rcases Nat.lt_or_ge j k with hjk | hjk
          · left
            have hjt : t < axVal a j := hhigh j hj hjk
            have hjge : axVal a (k - 1) ≤ axVal a j := by
              rcases Nat.lt_or_ge j (k - 1) with hjk1 | hjk1
              · exact le_of_lt (hdesc _ (by omega) j hjk1)
              · have : j = k - 1 := by omega
                rw [this]
            rw [hrd, absQ_of_nonneg (by linarith)]
            rw [hld, hrd] at hcmp
            linarith
          · rcases Nat.lt_or_ge k j with hkj | hkj
            · left
              have hjlow : axVal a j < axVal a k := hdesc j hj k hkj
              have hjt : axVal a j < t := hlow j hj (by omega)
              rw [hrd, absQ_of_nonpos (by linarith)]
              linarith
            · have : j = k := by omega
              subst this
              exact Or.inr ⟨rfl, le_refl _⟩
      · -- every axis value lies above t: nearest is the last position
        have hkeq : k = a.length := le_antisymm hkle hkge
        have hpad : padIdx a t = some (k - 1) := by
          rw [padIdx, hex]
          simp only [hm, Bool.false_eq_true, if_false]
          rw [← hk, if_neg (by omega)]
        have hbak : backfillIdx a t = none := by
          rw [backfillIdx, hex]
          simp only [hm, Bool.false_eq_true, if_false]
          rw [← hLeLt, ← hk, if_pos hkeq]
        have hnear : nearestIdx a t = some (k - 1) := by
          rw [nearestIdx, hpad, hbak]
        refine ⟨k - 1, hnear, by omega, ?_⟩
        intro j hj
        rcases Nat.lt_or_ge j (k - 1) with hjk1 | hjk1
        · left
          have hjhigh : axVal a (k - 1) < axVal a j := hdesc _ (by omega) j hjk1
          have hjt : t < axVal a j := hhigh j hj (by omega)
          have hkt : t < axVal a (k - 1) := hhigh _ (by omega) (by omega)
          rw [absQ_of_nonneg (by linarith), absQ_of_nonneg (by linarith)]
          linarith
        · have : j = k - 1 := by omega
          subst this
          exact Or.inr ⟨rfl, le_refl _⟩

/-- Nearest selection on any strictly monotonic non-empty axis is
distance-minimal with ties toward the larger axis value. -/
theorem nearestIdx_spec {a : List ℚ} (t : ℚ) (hne : a ≠ [])
    (hmono : StrictAscIdx a ∨ StrictDescIdx a) :
    ∃ i, nearestIdx a t = some i ∧ IsNearestTieHigh a t i := by
  rcases hmono with hasc | hdesc
  · exact nearestIdx_spec_asc t hne hasc
  · rcases Nat.lt_or_ge a.length 2 with hsmall | hbig
    · have hasc : StrictAscIdx a := by
        intro j hj i hij
        omega
      exact nearestIdx_spec_asc t hne hasc
    · exact nearestIdx_spec_desc t hbig hdesc

/-- On a strictly monotonic axis the distance-minimal index with ties
toward the larger value is unique, so `IsNearestTieHigh` pins down "the"
nearest index. -/
theorem isNearestTieHigh_unique {a : List ℚ} {t : ℚ}
    (hmono : StrictAscIdx a ∨ StrictDescIdx a) {i i' : ℕ}
    (h : IsNearestTieHigh a t i) (h' : IsNearestTieHigh a t i') : i = i' := by
  rcases h.2 i' h'.1 with hlt | ⟨heq, hle⟩ <;>
    rcases h'.2 i h.1 with hlt' | ⟨heq', hle'⟩
  · exact absurd (lt_trans hlt hlt') (lt_irrefl _)
  · exact absurd (heq' ▸ hlt) (lt_irrefl _)
  · exact absurd (heq ▸ hlt') (lt_irrefl _)
  · exact axVal_inj_of_strict hmono i i' h.1 h'.1 (le_antisymm hle' hle)

/-! ## Claim C1 -/

/-- C1, counterexample to the claim as stated: on the strictly ascending
time axis `[0, 2]` with a point at the exact halfway time `1`, the
extraction reads index `1` (value `20`), not the LOWER index `0`
(value `10`) that the claim's tie rule prescribes — position `0` is the
index selected by the claim's tie-toward-lower-index rule, yet the
attached value is the one stored at index `1`. -/
theorem C1_counterexample :
    selNearestGrid ⟨[0, 2], [0], [0], fun i _ _ => if i = 0 then some 10 else some 20⟩
        1 0 0 = some (some 20) ∧
    IsNearestTieLowIdx [0, 2] 1 0 ∧
    selNearestGrid ⟨[0, 2], [0], [0], fun i _ _ => if i = 0 then some 10 else some 20⟩
        1 0 0 ≠ some (some 10) := by
  with_unfolding_all decide

/-- C1, amended: for every point and every gridded source whose axes are
strictly monotonic and non-empty, the attached value equals the field's
value at the index triple obtained by independently selecting the nearest
index along each axis (time, lat, lon), with a tie exactly halfway
between two axis values resolving to the LARGER axis value — the higher
index on an ascending axis and the lower index on a descending one — and
that index triple is unique. -/
theorem C1_gridded_per_axis_nearest (f : GriddedField) (t la lo : ℚ)
    (hte : f.times ≠ []) (hta : StrictAscIdx f.times ∨ StrictDescIdx f.times)
    (hlae : f.lats ≠ []) (hlaa : StrictAscIdx f.lats ∨ StrictDescIdx f.lats)
    (hloe : f.lons ≠ []) (hloa : StrictAscIdx f.lons ∨ StrictDescIdx f.lons) :
    ∃ i j k, selNearestGrid f t la lo = some (f.value i j k) ∧
      IsNearestTieHigh f.times t i ∧ IsNearestTieHigh f.lats la j ∧
      IsNearestTieHigh f.lons lo k ∧
      (∀ i' j' k', IsNearestTieHigh f.times t i' → IsNearestTieHigh f.lats la j' →
        IsNearestTieHigh f.lons lo k' → (i', j', k') = (i, j, k)) := by
  obtain ⟨i, hi, hspec_i⟩ := nearestIdx_spec t hte hta
  obtain ⟨j, hj, hspec_j⟩ := nearestIdx_spec la hlae hlaa
  obtain ⟨k, hk, hspec_k⟩ := nearestIdx_spec lo hloe hloa
  refine ⟨i, j, k, ?_, hspec_i, hspec_j, hspec_k, ?_⟩
  · rw [selNearestGrid, hi, hj, hk]
  · intro i' j' k' hi' hj' hk'
    rw [isNearestTieHigh_unique hta hi' hspec_i,
      isNearestTieHigh_unique hlaa hj' hspec_j,
      isNearestTieHigh_unique hloa hk' hspec_k]

/-- C1, witness: the amended theorem applied to a concrete 2×2×1 field
(ascending time axis, descending latitude axis). -/
theorem C1_witness :
    ∃ (i j k : ℕ),
      selNearestGrid ⟨[0, 2], [5, 3], [1], fun i j k => some ((i : ℚ) * 100 + (j : ℚ) * 10 + (k : ℚ))⟩
          1 4 1 = some (some ((i : ℚ) * 100 + (j : ℚ) * 10 + (k : ℚ))) ∧
      IsNearestTieHigh [0, 2] 1 i ∧ IsNearestTieHigh [5, 3] 4 j ∧
      IsNearestTieHigh [1] 1 k ∧
      (∀ i' j' k', IsNearestTieHigh [0, 2] 1 i' → IsNearestTieHigh [5, 3] 4 j' →
        IsNearestTieHigh [1] 1 k' → (i', j', k') = (i, j, k)) :=
  C1_gridded_per_axis_nearest
    ⟨[0, 2], [5, 3], [1], fun i j k => some ((i : ℚ) * 100 + (j : ℚ) * 10 + (k : ℚ))⟩ 1 4 1
    (by with_unfolding_all decide) (Or.inl (by with_unfolding_all decide))
    (by with_unfolding_all decide) (Or.inr (by with_unfolding_all decide))
    (by with_unfolding_all decide) (Or.inl (by with_unfolding_all decide))

/-! ## Claim C2 -/

/-- C2: for every point and every non-empty track source, the attached
value is the value of a track sample that minimises the unscaled
(squared) Euclidean distance to the point in `(seconds, lat, lon)` space
— raw seconds mixed with degrees, no normalisation of the three
coordinates. -/
theorem C2_track_euclidean_nearest (tf : TrackField) (q : ℚ × ℚ × ℚ)
    (hne : tf.samples ≠ []) :
    ∃ s ∈ tf.samples, extract_track_data_with_kdtree tf q = some s.2 ∧
      ∀ s' ∈ tf.samples, sqDist s.1 q ≤ sqDist s'.1 q := by
  cases harg : tf.samples.argmin (fun s => sqDist s.1 q) with
  | none => exact absurd (List.argmin_eq_none.1 harg) hne
  | some m =>
    refine ⟨m, List.argmin_mem harg, ?_, ?_⟩
    · rw [extract_track_data_with_kdtree, harg, Option.map_some']
    · intro s' hs'
      exact List.le_of_mem_argmin hs' harg

/-- C2, witness: a synthetic track whose sample at `(100, 3, 4)` is the
unscaled-metric nearest neighbour of the query `(99, 0, 0)` (squared
distance `26` against `9801` for the sample at the origin), validating
that no unit scaling is applied to the seconds coordinate. -/
theorem C2_witness :
    ∃ s ∈ [(((0 : ℚ), (0 : ℚ), (0 : ℚ)), some (1 : ℚ)), ((100, 3, 4), some 2)],
      extract_track_data_with_kdtree ⟨[(((0 : ℚ), (0 : ℚ), (0 : ℚ)), some (1 : ℚ)), ((100, 3, 4), some 2)]⟩
          (99, 0, 0) = some s.2 ∧
      ∀ s' ∈ [(((0 : ℚ), (0 : ℚ), (0 : ℚ)), some (1 : ℚ)), ((100, 3, 4), some 2)],
        sqDist s.1 (99, 0, 0) ≤ sqDist s'.1 (99, 0, 0) :=
  C2_track_euclidean_nearest
    ⟨[(((0 : ℚ), (0 : ℚ), (0 : ℚ)), some (1 : ℚ)), ((100, 3, 4), some 2)]⟩
    (99, 0, 0) (by with_unfolding_all decide)

/-! ## Claim C10 -/

/-- C10: for a non-empty track source, the k-d tree lookup attaches SOME
track sample's stored value to EVERY query point — there is no distance
cutoff or out-of-range check, so a point arbitrarily far from every
sample still receives a sample's value rather than a null; a null can
only arise when the chosen sample's own stored value is `NaN`. -/
theorem C10_track_no_distance_cutoff (tf : TrackField) (hne : tf.samples ≠ []) :
    ∀ q : ℚ × ℚ × ℚ, ∃ s ∈ tf.samples,
      extract_track_data_with_kdtree tf q = some s.2 := by
  intro q
  cases harg : tf.samples.argmin (fun s => sqDist s.1 q) with
  | none => exact absurd (List.argmin_eq_none.1 harg) hne
  | some m =>
    refine ⟨m, List.argmin_mem harg, ?_⟩
    rw [extract_track_data_with_kdtree, harg, Option.map_some']

/-- C10, witness: a single-sample track still attaches its value to a
query point a billion seconds and hundreds of degrees away. -/
theorem C10_witness :
    ∃ s ∈ [(((0 : ℚ), (0 : ℚ), (0 : ℚ)), some (3 : ℚ))],
      extract_track_data_with_kdtree ⟨[(((0 : ℚ), (0 : ℚ), (0 : ℚ)), some (3 : ℚ))]⟩
        (1000000000, 500, 500) = some s.2 :=
  C10_track_no_distance_cutoff ⟨[(((0 : ℚ), (0 : ℚ), (0 : ℚ)), some (3 : ℚ))]⟩
    (by with_unfolding_all decide) (1000000000, 500, 500)

/-! ## Claim C3 -/

theorem cntLe_eq_cntLt_add_between (a : List ℚ) {lo hi : ℚ} (h : lo ≤ hi) :
    cntLe a hi = cntLt a lo + a.countP (fun v => decide (lo ≤ v ∧ v ≤ hi)) := by
  induction a with
  | nil => rfl
  | cons x xs ih =>
    rcases lt_or_le x lo with hxlo | hxlo
    · have hxhi : x ≤ hi := le_of_lt (lt_of_lt_of_le hxlo h)
      rw [cntLe, List.countP_cons_of_pos _ _ (by simpa using hxhi),
        cntLt, List.countP_cons_of_pos _ _ (by simpa using hxlo),
        List.countP_cons_of_neg _ _ (by simp; intro hc; linarith)]
      rw [cntLe, cntLt] at ih
      omega
    · rcases le_or_lt x hi with hxhi | hxhi
      · rw [cntLe, List.countP_cons_of_pos _ _ (by simpa using hxhi),
          cntLt, List.countP_cons_of_neg _ _ (by simpa using not_lt.2 hxlo),
          List.countP_cons_of_pos _ _ (by simp [hxlo, hxhi])]
        rw [cntLe, cntLt] at ih
        omega
      · rw [cntLe, List.countP_cons_of_neg _ _ (by simpa using not_le.2 hxhi),
          cntLt, List.countP_cons_of_neg _ _
            (by simp only [decide_eq_true_eq]; exact not_lt.2 hxlo),
          List.countP_cons_of_neg _ _ (by
            simp only [decide_eq_true_eq]
            exact fun hc => absurd hc.2 (not_le.2 hxhi))]
        exact ih

/-- Length of the cropped axis on the ascending branch
(`slice(lo, hi)` with `lo ≤ hi`): the number of axis values inside
`[lo, hi]`. -/
theorem cropAxis_asc_length {a : List ℚ} {lo hi : ℚ} (hlohi : lo ≤ hi)
    (hm : isMonoIncB a = true) :
    (cropAxis a lo hi).length = a.countP (fun v => decide (lo ≤ v ∧ v ≤ hi)) := by
  have hb := cntLe_eq_cntLt_add_between a hlohi
  have hle : cntLe a hi ≤ a.length := cntLe_le_length a hi
  rw [cropAxis, sliceBoundLeft, sliceBoundRight, hm, if_pos rfl, if_pos rfl,
    List.length_take, List.length_drop]
  omega

/-- Length of the cropped axis on the descending branch
(`slice(hi, lo)` with `lo ≤ hi`): the number of axis values inside
`[lo, hi]`. -/
theorem cropAxis_desc_length {a : List ℚ} {lo hi : ℚ} (hlohi : lo ≤ hi)
    (hm : isMonoIncB a = false) :
    (cropAxis a hi lo).length = a.countP (fun v => decide (lo ≤ v ∧ v ≤ hi)) := by
  have hb := cntLe_eq_cntLt_add_between a hlohi
  have hle : cntLe a hi ≤ a.length := cntLe_le_length a hi
  have hlt : cntLt a lo ≤ a.length := cntLt_le_length a lo
  rw [cropAxis, sliceBoundLeft, sliceBoundRight, hm]
  simp only [Bool.false_eq_true, if_false]
  rw [List.length_take, List.length_drop]
  omega

/-- C3, counterexample to the claim as stated: a gridded source whose
latitude axis `[0, 1, 2]` is strictly ASCENDING and covers exactly the
points' latitude range `[0, 2]` (its bounding box coincides with the
points' box, so they overlap) is nonetheless skipped by the overlap
check, because the crop slices latitude from the maximum down to the
minimum, which selects nothing on an ascending axis. -/
theorem C3_counterexample :
    open_multifile_crop [0, 1, 2] [0, 1] (0, 2) (0, 1) = none ∧
    StrictAscIdx [0, 1, 2] ∧
    (∃ v ∈ [(0 : ℚ), 1, 2], 0 ≤ v ∧ v ≤ 2) ∧
    (∃ v ∈ [(0 : ℚ), 1], 0 ≤ v ∧ v ≤ 1) := by
  with_unfolding_all decide

/-- C3, amended: for a gridded source with a strictly descending latitude
axis (of at least two values, as in the shipped L3m products) and a
strictly ascending longitude axis, the cropping step skips the source
(returns `none`, raising no error) if and only if no latitude grid value
lies within the points' latitude range or no longitude grid value lies
within the points' longitude range.  The check presumes those axis
orientations: an ascending latitude axis is skipped even when it
overlaps (see the counterexample), and an overlapping source none of
whose grid values falls inside the points' range is also skipped. -/
theorem C3_overlap_skip (lats lons : List ℚ) (latLo latHi lonLo lonHi : ℚ)
    (hlat : latLo ≤ latHi) (hlon : lonLo ≤ lonHi)
    (hdesc : StrictDescIdx lats) (hlen : 2 ≤ lats.length)
    (hasc : StrictAscIdx lons) :
    open_multifile_crop lats lons (latLo, latHi) (lonLo, lonHi) = none ↔
      ((¬ ∃ v ∈ lats, latLo ≤ v ∧ v ≤ latHi) ∨
       (¬ ∃ v ∈ lons, lonLo ≤ v ∧ v ≤ lonHi)) := by
  have hmlat : isMonoIncB lats = false := isMonoIncB_eq_false_of_strictDesc hdesc hlen
  have hmlon : isMonoIncB lons = true := isMonoIncB_of_strictAsc hasc
  have hcond : ((List.countP (fun v => decide (latLo ≤ v ∧ v ≤ latHi)) lats = 0) ∨
      (List.countP (fun v => decide (lonLo ≤ v ∧ v ≤ lonHi)) lons = 0)) ↔
      ((¬ ∃ v ∈ lats, latLo ≤ v ∧ v ≤ latHi) ∨
       (¬ ∃ v ∈ lons, lonLo ≤ v ∧ v ≤ lonHi)) := by
    rw [List.countP_eq_zero, List.countP_eq_zero]
    constructor
    · rintro (h | h)
      · exact Or.inl (by rintro ⟨v, hv, h1, h2⟩; exact h v hv (by simp [h1, h2]))
      · exact Or.inr (by rintro ⟨v, hv, h1, h2⟩; exact h v hv (by simp [h1, h2]))
    · rintro (h | h)
      · refine Or.inl (fun v hv hp => h ?_)
        simp only [decide_eq_true_eq] at hp
        exact ⟨v, hv, hp⟩
      · refine Or.inr (fun v hv hp => h ?_)
        simp only [decide_eq_true_eq] at hp
        exact ⟨v, hv, hp⟩
  rw [open_multifile_crop]
  simp only [max_eq_right hlat, min_eq_left hlat, min_eq_left hlon, max_eq_right hlon]
  rw [cropAxis_desc_length hlat hmlat, cropAxis_asc_length hlon hmlon]
  by_cases hc : (List.countP (fun v => decide (latLo ≤ v ∧ v ≤ latHi)) lats = 0) ∨
      (List.countP (fun v => decide (lonLo ≤ v ∧ v ≤ lonHi)) lons = 0)
  · rw [if_pos hc]
    simpa using hcond.1 hc
  · rw [if_neg hc]
    constructor
    · intro hs
      exact Option.noConfusion hs
    · intro hab
      exact absurd (hcond.2 hab) hc

/-- C3, witness: the amended skip criterion evaluated on a concrete
descending-latitude source: latitudes `[5, 3]` have no value inside the
points' latitude range `[0, 2]`, so the source is skipped. -/
theorem C3_witness :
    open_multifile_crop [5, 3] [0, 1] (0, 2) (0, 1) = none ↔
      ((¬ ∃ v ∈ [(5 : ℚ), 3], 0 ≤ v ∧ v ≤ 2) ∨
       (¬ ∃ v ∈ [(0 : ℚ), 1], 0 ≤ v ∧ v ≤ 1)) :=
  C3_overlap_skip [5, 3] [0, 1] 0 2 0 1 (by with_unfolding_all decide)
    (by with_unfolding_all decide) (by with_unfolding_all decide)
    (by with_unfolding_all decide) (by with_unfolding_all decide)

/-! ## Claim C4 -/

theorem foldl_min_le_init (xs : List ℚ) : ∀ x : ℚ, xs.foldl min x ≤ x := by
  induction xs with
  | nil => intro x; exact le_refl x
  | cons y ys ih =>
    intro x
    exact le_trans (ih (min x y)) (min_le_left x y)

theorem init_le_foldl_max (xs : List ℚ) : ∀ x : ℚ, x ≤ xs.foldl max x := by
  induction xs with
  | nil => intro x; exact le_refl x
  | cons y ys ih =>
    intro x
    exact le_trans (le_max_left x y) (ih (max x y))

theorem colMin_le_colMax {xs : List ℚ} (h : xs ≠ []) : colMin xs ≤ colMax xs := by
  cases xs with
  | nil => exact absurd rfl h
  | cons x ys =>
    exact le_trans (foldl_min_le_init ys x) (init_le_foldl_max ys x)

theorem uniformDraw_mem {lo hi u : ℚ} (hlohi : lo ≤ hi) (h0 : 0 ≤ u) (h1 : u < 1) :
    lo ≤ uniformDraw lo hi u ∧ uniformDraw lo hi u ≤ hi := by
  rw [uniformDraw]
  constructor
  · nlinarith
  · nlinarith

theorem randint_mem {lo hi : ℤ} (h : lo < hi) (g : ℕ) :
    lo ≤ randint lo hi g ∧ randint lo hi g < hi := by
  rw [randint]
  have h1 : (0 : ℤ) ≤ (g : ℤ) % (hi - lo) := Int.emod_nonneg _ (by omega)
  have h2 : (g : ℤ) % (hi - lo) < hi - lo := Int.emod_lt_of_pos _ (by omega)
  omega

/-- C4, counterexample to the claim as stated: the timestamp endpoint
`t1` is NOT attainable.  With `t0 = 0` and `t1 = 10`,
`np.random.randint(0, 10)` can never produce `10` (its upper bound is
exclusive), and a sampler draw whose generator lands on the largest
residue yields `9 = t1 - 1`, not `t1`. -/
theorem C4_counterexample :
    (10 : ℤ) ∉ randintSupport 0 10 ∧
    (pseudoAbsence [⟨0, 0, 0⟩] 0 10 (fun _ => 0) (fun _ => 0) (fun _ => 9)).map Pt.time
      = [9, 9] := by
  constructor
  · rintro ⟨g, hg⟩
    have h := @randint_mem 0 10 (by omega) g
    omega
  · with_unfolding_all decide

/-- C4, amended: given `N > 0` observed points, the sampler produces
exactly `2N` synthetic points whose latitudes and longitudes lie within
the observed points' bounding box (uniform draws mapped over
`[min, max]`), and whose timestamps are integer seconds drawn from the
HALF-OPEN interval `[t0, t1)` — `t0` attainable, `t1` not — with every
integer of `[t0, t1)` attainable. -/
theorem C4_pseudo_absence (pres : List Pt) (startTs endTs : ℤ)
    (uLat uLon : ℕ → ℚ) (g : ℕ → ℕ)
    (hne : pres ≠ []) (hts : startTs < endTs)
    (huLat : ∀ i, 0 ≤ uLat i ∧ uLat i < 1) (huLon : ∀ i, 0 ≤ uLon i ∧ uLon i < 1) :
    (pseudoAbsence pres startTs endTs uLat uLon g).length = 2 * pres.length ∧
    (∀ p ∈ pseudoAbsence pres startTs endTs uLat uLon g,
      startTs ≤ p.time ∧ p.time < endTs ∧
      colMin (pres.map Pt.lat) ≤ p.lat ∧ p.lat ≤ colMax (pres.map Pt.lat) ∧
      colMin (pres.map Pt.lon) ≤ p.lon ∧ p.lon ≤ colMax (pres.map Pt.lon)) ∧
    randintSupport startTs endTs = Set.Ico startTs endTs := by
  have hpos : 0 < pres.length := List.length_pos.2 hne
  have hmapne : ∀ f : Pt → ℚ, pres.map f ≠ [] := by
    intro f hmap
    exact hne (List.map_eq_nil_iff.1 hmap)
  refine ⟨?_, ?_, ?_⟩
  · rw [pseudoAbsence, if_pos hpos]
    simp [Nat.mul_comm]
  · intro p hp
    rw [pseudoAbsence, if_pos hpos] at hp
    rcases List.mem_map.1 hp with ⟨i, _, rfl⟩
    have htime := randint_mem hts (g i)
    have hlat := uniformDraw_mem (colMin_le_colMax (hmapne Pt.lat))
      (huLat i).1 (huLat i).2
    have hlon := uniformDraw_mem (colMin_le_colMax (hmapne Pt.lon))
      (huLon i).1 (huLon i).2
    exact ⟨htime.1, htime.2, hlat.1, hlat.2, hlon.1, hlon.2⟩
  · ext z
    constructor
    · rintro ⟨g', rfl⟩
      have h := randint_mem hts g'
      exact ⟨h.1, h.2⟩
    · rintro ⟨h1, h2⟩
      refine ⟨(z - startTs).toNat, ?_⟩
      rw [randint]
      have hcast : ((z - startTs).toNat : ℤ) = z - startTs := Int.toNat_of_nonneg (by omega)
      rw [hcast, Int.emod_eq_of_lt (by omega) (by omega)]
      omega

/-- C4, witness: the amended sampler contract on two concrete presence
points, time range `[0, 10)` and concrete generator draws. -/
theorem C4_witness :
    (pseudoAbsence [⟨0, 1, 2⟩, ⟨0, 5, 6⟩] 0 10 (fun _ => 1/2) (fun _ => 0)
      (fun i => i)).length = 2 * 2 ∧
    (∀ p ∈ pseudoAbsence [⟨0, 1, 2⟩, ⟨0, 5, 6⟩] 0 10 (fun _ => 1/2) (fun _ => 0)
      (fun i => i),
      (0 : ℤ) ≤ p.time ∧ p.time < 10 ∧
      colMin ([⟨0, 1, 2⟩, ⟨0, 5, 6⟩].map Pt.lat) ≤ p.lat ∧
      p.lat ≤ colMax ([⟨0, 1, 2⟩, ⟨0, 5, 6⟩].map Pt.lat) ∧
      colMin ([⟨0, 1, 2⟩, ⟨0, 5, 6⟩].map Pt.lon) ≤ p.lon ∧
      p.lon ≤ colMax ([⟨0, 1, 2⟩, ⟨0, 5, 6⟩].map Pt.lon)) ∧
    randintSupport 0 10 = Set.Ico 0 10 :=
  C4_pseudo_absence [⟨0, 1, 2⟩, ⟨0, 5, 6⟩] 0 10 (fun _ => 1/2) (fun _ => 0)
    (fun i => i) (by with_unfolding_all decide) (by omega)
    (fun _ => ⟨by norm_num, by norm_num⟩) (fun _ => ⟨le_refl 0, by norm_num⟩)

/-! ## Pipeline structure lemmas (shared by C5, C6, C7, C9) -/

/-- The call `list.index('presence')` always hits position 3 of the base columns,
so the reordering step always succeeds and puts `presence` last. -/
theorem finalColumns_eq (names : List String) :
    finalColumns names =
      some ("time" :: "lat" :: "lon" :: ((names ++ dayColumns) ++ ["presence"])) := rfl

/-- Inversion of a successful pipeline run: the artifact's name,
compression, column list and rows. -/
theorem pipeline_eq_some {pres : List Pt} {startTs endTs : ℤ}
    {uLat uLon : ℕ → ℚ} {g : ℕ → ℕ} {srcs : List SourceSpec} {out : OutputFile}
    (hout : final_dataset_pipeline pres startTs endTs uLat uLon g srcs = some out) :
    out = ⟨"model_training_dataset.csv.gz", "gzip",
      "time" :: "lat" :: "lon" ::
        ((((successes srcs).map Prod.fst) ++ dayColumns) ++ ["presence"]),
      dropnaRows (successes srcs)
        (combinedPoints pres (pseudoAbsence pres startTs endTs uLat uLon g))⟩ := by
  rw [final_dataset_pipeline] at hout
  by_cases h1 : 0 < (combinedPoints pres (pseudoAbsence pres startTs endTs uLat uLon g)).length
  · rw [if_pos h1] at hout
    by_cases h2 : (dropnaRows (successes srcs)
        (combinedPoints pres (pseudoAbsence pres startTs endTs uLat uLon g))).length = 0
    · rw [if_pos h2] at hout
      exact Option.noConfusion hout
    · rw [if_neg h2, finalColumns_eq] at hout
      exact (Option.some.injEq _ _ ▸ hout).symm
  · rw [if_neg h1] at hout
    exact Option.noConfusion hout

/-- The combined table is empty exactly when there are no presence rows. -/
theorem combinedPoints_empty_iff (pres : List Pt) (startTs endTs : ℤ)
    (uLat uLon : ℕ → ℚ) (g : ℕ → ℕ) :
    (combinedPoints pres (pseudoAbsence pres startTs endTs uLat uLon g)).length = 0 ↔
      pres = [] := by
  rw [combinedPoints, List.length_append, List.length_map, List.length_map]
  constructor
  · intro h
    exact List.length_eq_zero.1 (by omega)
  · rintro rfl
    rw [pseudoAbsence]
    simp

/-! ## Claim C5 -/

/-- C5: a row appears in the final output table if and only if it is one
of the combined points and every successfully attached source column
holds a value at it — rows with any missing attached value are removed
outright, with no imputation (`time`, `lat`, `lon`, `presence`,
`day_sin`, `day_cos` are never missing: the inputs were dropna-ed at load
and `sin`/`cos` are total). -/
theorem C5_row_kept_iff_complete (pres : List Pt) (startTs endTs : ℤ)
    (uLat uLon : ℕ → ℚ) (g : ℕ → ℕ) (srcs : List SourceSpec) (out : OutputFile)
    (hout : final_dataset_pipeline pres startTs endTs uLat uLon g srcs = some out)
    (r : Pt × ℕ) :
    r ∈ out.rows ↔
      r ∈ combinedPoints pres (pseudoAbsence pres startTs endTs uLat uLon g) ∧
      ∀ s ∈ successes srcs, (s.2 r.1).isSome := by
  rw [pipeline_eq_some hout]
  rw [dropnaRows, List.mem_filter, rowComplete]
  simp [List.all_eq_true]

/-- C5, witness: on one presence point with a single everywhere-defined
source, the presence row is kept exactly because its only attached column
is non-null. -/
theorem C5_witness :
    (⟨⟨0, 1, 2⟩, 1⟩ : Pt × ℕ) ∈
      (⟨"model_training_dataset.csv.gz", "gzip",
        ["time", "lat", "lon", "sst", "day_sin", "day_cos", "presence"],
        [(⟨0, 1, 2⟩, 1), (⟨0, 1, 2⟩, 0), (⟨0, 1, 2⟩, 0)]⟩ : OutputFile).rows ↔
      (⟨⟨0, 1, 2⟩, 1⟩ : Pt × ℕ) ∈
        combinedPoints [⟨0, 1, 2⟩]
          (pseudoAbsence [⟨0, 1, 2⟩] 0 10 (fun _ => 0) (fun _ => 0) (fun _ => 0)) ∧
      ∀ s ∈ successes [("sst", .ok (some (fun _ => some 7)))],
        (s.2 (⟨0, 1, 2⟩ : Pt)).isSome :=
  C5_row_kept_iff_complete [⟨0, 1, 2⟩] 0 10 (fun _ => 0) (fun _ => 0) (fun _ => 0)
    [("sst", .ok (some (fun _ => some 7)))] _
    (by with_unfolding_all decide) ⟨⟨0, 1, 2⟩, 1⟩

/-! ## Claim C6 -/

theorem successes_acc (srcs : List SourceSpec) :
    ∀ acc : List (String × (Pt → Option ℚ)),
      srcs.foldl (fun acc s =>
        match s.2 with
        | .ok (some f) => acc ++ [(s.1, f)]
        | _ => acc) acc
      = acc ++ srcs.foldl (fun acc s =>
        match s.2 with
        | .ok (some f) => acc ++ [(s.1, f)]
        | _ => acc) [] := by
  induction srcs with
  | nil => intro acc; simp
  | cons s rest ih =>
    intro acc
    rcases s with ⟨nm, e⟩
    rcases e with e | o
    · simpa using ih acc
    · rcases o with _ | f
      · simpa using ih acc
      · simp only [List.foldl_cons]
        rw [ih (acc ++ [(nm, f)]), ih ([] ++ [(nm, f)])]
        simp

theorem successes_append (xs ys : List SourceSpec) :
    successes (xs ++ ys) = successes xs ++ successes ys := by
  rw [successes, successes, successes, List.foldl_append]
  rw [successes_acc ys (List.foldl _ [] xs)]

/-- C6: a failure loading or indexing one source — an exception
(`.error ()`: corrupt file, empty directory) or a no-overlap skip
(`.ok none`) — contributes no column and leaves the processing of every
other source and of all points unchanged: the run's result with the
failing source inserted anywhere equals the result without it, so no
per-source failure aborts the run. -/
theorem C6_source_failure_isolated (pres : List Pt) (startTs endTs : ℤ)
    (uLat uLon : ℕ → ℚ) (g : ℕ → ℕ) (s₁ s₂ : List SourceSpec) (nm : String)
    (bad : Except Unit (Option (Pt → Option ℚ)))
    (hbad : ∀ f, bad ≠ .ok (some f)) :
    successes (s₁ ++ (nm, bad) :: s₂) = successes s₁ ++ successes s₂ ∧
    final_dataset_pipeline pres startTs endTs uLat uLon g (s₁ ++ (nm, bad) :: s₂) =
      final_dataset_pipeline pres startTs endTs uLat uLon g (s₁ ++ s₂) := by
  have hbadnil : successes [(nm, bad)] = [] := by
    rw [successes]
    rcases bad with e | o
    · rfl
    · rcases o with _ | f
      · rfl
      · exact absurd rfl (hbad f)
  have hsucc : successes (s₁ ++ (nm, bad) :: s₂) = successes s₁ ++ successes s₂ := by
    have h1 : s₁ ++ (nm, bad) :: s₂ = (s₁ ++ [(nm, bad)]) ++ s₂ := by simp
    rw [h1, successes_append, successes_append, hbadnil]
    simp
  refine ⟨hsucc, ?_⟩
  rw [final_dataset_pipeline, final_dataset_pipeline, hsucc, successes_append]

/-- C6, witness: inserting a crashing source between two good ones
changes nothing about the run's output. -/
theorem C6_witness :
    successes [("chlor_a", .ok (some (fun _ => some 1))), ("sst", .error ()),
        ("sss", .ok (some (fun _ => some 2)))] =
      successes [("chlor_a", .ok (some (fun _ => some 1)))] ++
        successes [("sss", .ok (some (fun _ => some 2)))] ∧
    final_dataset_pipeline [⟨0, 1, 2⟩] 0 10 (fun _ => 0) (fun _ => 0) (fun _ => 0)
        [("chlor_a", .ok (some (fun _ => some 1))), ("sst", .error ()),
         ("sss", .ok (some (fun _ => some 2)))] =
      final_dataset_pipeline [⟨0, 1, 2⟩] 0 10 (fun _ => 0) (fun _ => 0) (fun _ => 0)
        [("chlor_a", .ok (some (fun _ => some 1))), ("sss", .ok (some (fun _ => some 2)))] :=
  C6_source_failure_isolated [⟨0, 1, 2⟩] 0 10 (fun _ => 0) (fun _ => 0) (fun _ => 0)
    [("chlor_a", .ok (some (fun _ => some 1)))] [("sss", .ok (some (fun _ => some 2)))]
    "sst" (.error ()) (fun _ h => Except.noConfusion h)

/-! ## Claim C7 -/

/-- C7, counterexample to "this is the only condition that prevents
output": with one presence record (non-empty occurrences) and a
successfully processed source whose value is missing at every point,
every row is dropped and no output file is produced either. -/
theorem C7_counterexample :
    final_dataset_pipeline [⟨0, 1, 2⟩] 0 10 (fun _ => 0) (fun _ => 0) (fun _ => 0)
        [("sst", .ok (some (fun _ => none)))] = none ∧
    ([⟨0, 1, 2⟩] : List Pt) ≠ [] := by
  with_unfolding_all decide

/-- C7, amended: a zero-row occurrence table yields zero pseudo-absence
rows and no output file, without raising — but it is not the only
condition preventing output: the run produces no output file exactly
when the occurrence table is empty OR every joined row was dropped for a
missing attached value. -/
theorem C7_empty_input_no_output (pres : List Pt) (startTs endTs : ℤ)
    (uLat uLon : ℕ → ℚ) (g : ℕ → ℕ) (srcs : List SourceSpec) :
    pseudoAbsence [] startTs endTs uLat uLon g = [] ∧
    final_dataset_pipeline [] startTs endTs uLat uLon g srcs = none ∧
    (final_dataset_pipeline pres startTs endTs uLat uLon g srcs = none ↔
      pres = [] ∨ dropnaRows (successes srcs)
        (combinedPoints pres (pseudoAbsence pres startTs endTs uLat uLon g)) = []) := by
  have hps : pseudoAbsence [] startTs endTs uLat uLon g = [] := by
    rw [pseudoAbsence]; simp
  have hnone : ∀ (q : List Pt), q = [] →
      final_dataset_pipeline q startTs endTs uLat uLon g srcs = none := by
    rintro q rfl
    rw [final_dataset_pipeline, if_neg]
    rw [combinedPoints, hps]
    simp
  refine ⟨hps, hnone [] rfl, ?_⟩
  by_cases hpres : pres = []
  · subst hpres
    simp [hnone [] rfl]
  · have hlen : 0 < (combinedPoints pres
        (pseudoAbsence pres startTs endTs uLat uLon g)).length := by
      rcases Nat.eq_zero_or_pos (combinedPoints pres
          (pseudoAbsence pres startTs endTs uLat uLon g)).length with h0 | h
      · exact absurd ((combinedPoints_empty_iff pres startTs endTs uLat uLon g).1 h0) hpres
      · exact h
    simp only [final_dataset_pipeline, finalColumns_eq]
    rw [if_pos hlen]
    by_cases hk : (dropnaRows (successes srcs)
        (combinedPoints pres (pseudoAbsence pres startTs endTs uLat uLon g))).length = 0
    · rw [if_pos hk]
      simp [hpres, List.length_eq_zero.1 hk]
    · rw [if_neg hk]
      constructor
      · intro hs
        exact Option.noConfusion hs
      · rintro (h | h)
        · exact absurd h hpres
        · rw [h] at hk
          simp at hk

/-- C7, witness: the amended no-output criterion on one concrete presence
point and an everywhere-defined source. -/
theorem C7_witness :
    pseudoAbsence [] 0 10 (fun _ => 0) (fun _ => 0) (fun _ => 0) = [] ∧
    final_dataset_pipeline [] 0 10 (fun _ => 0) (fun _ => 0) (fun _ => 0)
      [("sst", .ok (some (fun _ => some 7)))] = none ∧
    (final_dataset_pipeline [⟨0, 1, 2⟩] 0 10 (fun _ => 0) (fun _ => 0) (fun _ => 0)
        [("sst", .ok (some (fun _ => some 7)))] = none ↔
      ([⟨0, 1, 2⟩] : List Pt) = [] ∨
        dropnaRows (successes [("sst", .ok (some (fun _ => some 7)))])
          (combinedPoints [⟨0, 1, 2⟩]
            (pseudoAbsence [⟨0, 1, 2⟩] 0 10 (fun _ => 0) (fun _ => 0) (fun _ => 0))) = []) :=
  C7_empty_input_no_output [⟨0, 1, 2⟩] 0 10 (fun _ => 0) (fun _ => 0) (fun _ => 0)
    [("sst", .ok (some (fun _ => some 7)))]

/-! ## Claim C9 -/

/-- C9: whenever the run writes an artifact and all four sources
(`chlor_a`, `sst`, `ssha`, `sss`) were successfully processed, the
artifact is `model_training_dataset.csv.gz` with gzip compression and
its columns are exactly `time, lat, lon, chlor_a, sst, ssha, sss,
day_sin, day_cos, presence`, in that order, `presence` last. -/
theorem C9_output_columns (pres : List Pt) (startTs endTs : ℤ)
    (uLat uLon : ℕ → ℚ) (g : ℕ → ℕ) (f1 f2 f3 f4 : Pt → Option ℚ)
    (out : OutputFile)
    (hout : final_dataset_pipeline pres startTs endTs uLat uLon g
      [("chlor_a", .ok (some f1)), ("sst", .ok (some f2)),
       ("ssha", .ok (some f3)), ("sss", .ok (some f4))] = some out) :
    out.filename = "model_training_dataset.csv.gz" ∧
    out.compression = "gzip" ∧
    out.columns = ["time", "lat", "lon", "chlor_a", "sst", "ssha", "sss",
      "day_sin", "day_cos", "presence"] := by
  rw [pipeline_eq_some hout]
  refine ⟨rfl, rfl, ?_⟩
  rfl

/-- C9, witness: a run over one presence point with all four sources
defined everywhere produces exactly the claimed artifact. -/
theorem C9_witness :
    (⟨"model_training_dataset.csv.gz", "gzip",
      ["time", "lat", "lon", "chlor_a", "sst", "ssha", "sss",
        "day_sin", "day_cos", "presence"],
      [(⟨0, 1, 2⟩, 1), (⟨0, 1, 2⟩, 0), (⟨0, 1, 2⟩, 0)]⟩ : OutputFile).filename
        = "model_training_dataset.csv.gz" ∧
    (⟨"model_training_dataset.csv.gz", "gzip",
      ["time", "lat", "lon", "chlor_a", "sst", "ssha", "sss",
        "day_sin", "day_cos", "presence"],
      [(⟨0, 1, 2⟩, 1), (⟨0, 1, 2⟩, 0), (⟨0, 1, 2⟩, 0)]⟩ : OutputFile).compression = "gzip" ∧
    (⟨"model_training_dataset.csv.gz", "gzip",
      ["time", "lat", "lon", "chlor_a", "sst", "ssha", "sss",
        "day_sin", "day_cos", "presence"],
      [(⟨0, 1, 2⟩, 1), (⟨0, 1, 2⟩, 0), (⟨0, 1, 2⟩, 0)]⟩ : OutputFile).columns
        = ["time", "lat", "lon", "chlor_a", "sst", "ssha", "sss",
           "day_sin", "day_cos", "presence"] :=
  C9_output_columns [⟨0, 1, 2⟩] 0 10 (fun _ => 0) (fun _ => 0) (fun _ => 0)
    (fun _ => some 1) (fun _ => some 2) (fun _ => some 3) (fun _ => some 4) _
    (by with_unfolding_all decide)

/-! ## Claim C8 -/

theorem downloadLoop_attempts_le (fname savePath : String) (resp : ℕ → HttpAttempt) :
    ∀ n i, (downloadLoop fname savePath resp n i).attempts ≤ n := by
  intro n
  induction n with
  | zero => intro i; rfl
  | succ m ih =>
    intro i
    rw [downloadLoop]
    cases resp i with
    | htmlPage => exact Nat.le_add_left 1 m
    | success size =>
      by_cases hs : 10000 < size <;> simp [hs]
    | notFound => exact Nat.le_add_left 1 m
    | otherStatus => exact Nat.succ_le_succ (ih (i + 1))
    | netError => exact Nat.succ_le_succ (ih (i + 1))

theorem downloadLoop_delays_fixed (fname savePath : String) (resp : ℕ → HttpAttempt) :
    ∀ n i, ∀ d ∈ (downloadLoop fname savePath resp n i).delays, d = 5 := by
  intro n
  induction n with
  | zero => intro i d hd; simp [downloadLoop] at hd
  | succ m ih =>
    intro i d hd
    rw [downloadLoop] at hd
    cases hri : resp i with
    | htmlPage => rw [hri] at hd; simp at hd
    | success size =>
      rw [hri] at hd
      by_cases hs : 10000 < size <;> simp [hs] at hd
    | notFound => rw [hri] at hd; simp at hd
    | otherStatus =>
      rw [hri] at hd
      simp only [List.mem_cons] at hd
      rcases hd with rfl | hd
      · rfl
      · exact ih (i + 1) d hd
    | netError =>
      rw [hri] at hd
      simp only [List.mem_cons] at hd
      rcases hd with rfl | hd
      · rfl
      · exact ih (i + 1) d hd

theorem downloadLoop_all_transient (fname savePath : String) (resp : ℕ → HttpAttempt)
    (htr : ∀ i, resp i = .otherStatus ∨ resp i = .netError) :
    ∀ n i, downloadLoop fname savePath resp n i =
      ⟨none, [fname ++ " (Max retries reached)"], List.replicate n 5, n⟩ := by
  intro n
  induction n with
  | zero => intro i; rfl
  | succ m ih =>
    intro i
    rw [downloadLoop]
    rcases htr i with h | h <;> rw [h] <;> rw [ih (i + 1)] <;>
      simp [List.replicate_succ]

/-- C8, counterexample to "every permanently-failed or not-found target
is logged": a response that is an HTML page (the malformed-filename /
wrong-URL case, `"Filename may be incorrect"`) makes `download_nc_file`
return `None` after a single request with NOTHING appended to
`missing_files.txt`; likewise a 200-response whose body is under the
minimum size is deleted and skipped without a log entry. -/
theorem C8_counterexample :
    download_nc_file "f.nc" "sst_data_8day/f.nc" false 0 (fun _ => .htmlPage) 3 =
      ⟨none, [], [], 1⟩ ∧
    download_nc_file "f.nc" "sst_data_8day/f.nc" false 0 (fun _ => .success 5) 3 =
      ⟨none, [], [], 1⟩ := by
  with_unfolding_all decide

/-- C8, amended: the downloader skips a target whose local file exists
and passes the minimum-size check (no request, no log, no sleep); it
issues at most `retries = 3` requests with every inter-attempt delay
fixed at 5 seconds; when every attempt fails transiently (other status
or network error) it exhausts the 3 attempts, appends the target to the
missing-files log and returns `None` without aborting; a 404 appends the
target to the log and returns `None` after that one request.  (An HTML
response and a too-small download also return `None` but are NOT
logged — see the counterexample.) -/
theorem C8_downloader (fname savePath : String) (existsLocal : Bool)
    (localSize : ℕ) (resp : ℕ → HttpAttempt) :
    (existsLocal = true ∧ 10000 < localSize →
      download_nc_file fname savePath existsLocal localSize resp 3 =
        ⟨some savePath, [], [], 0⟩) ∧
    (download_nc_file fname savePath existsLocal localSize resp 3).attempts ≤ 3 ∧
    (∀ d ∈ (download_nc_file fname savePath existsLocal localSize resp 3).delays, d = 5) ∧
    ((∀ i, resp i = .otherStatus ∨ resp i = .netError) →
      ¬(existsLocal = true ∧ 10000 < localSize) →
      download_nc_file fname savePath existsLocal localSize resp 3 =
        ⟨none, [fname ++ " (Max retries reached)"], [5, 5, 5], 3⟩) ∧
    (resp 1 = .notFound → ¬(existsLocal = true ∧ 10000 < localSize) →
      download_nc_file fname savePath existsLocal localSize resp 3 =
        ⟨none, [fname ++ " (404 Not Found)"], [], 1⟩) := by
  refine ⟨?_, ?_, ?_, ?_, ?_⟩
  · intro h
    rw [download_nc_file, if_pos h]
  · rw [download_nc_file]
    split
    · exact Nat.zero_le 3
    · exact downloadLoop_attempts_le fname savePath resp 3 1
  · rw [download_nc_file]
    split
    · intro d hd; simp at hd
    · exact downloadLoop_delays_fixed fname savePath resp 3 1
  · intro htr h
    rw [download_nc_file, if_neg h]
    exact downloadLoop_all_transient fname savePath resp htr 3 1
  · intro h404 h
    rw [download_nc_file, if_neg h, downloadLoop, h404]

/-- C8, witness: the amended downloader contract applied to a concrete
target with all-transient network errors and no valid local copy. -/
theorem C8_witness :
    download_nc_file "AQUA_MODIS.20200101_20200108.L3m.8D.SST.sst.4km.nc"
        "sst_data_8day/AQUA_MODIS.20200101_20200108.L3m.8D.SST.sst.4km.nc"
        false 0 (fun _ => .netError) 3 =
      ⟨none, ["AQUA_MODIS.20200101_20200108.L3m.8D.SST.sst.4km.nc (Max retries reached)"],
        [5, 5, 5], 3⟩ :=
  (C8_downloader "AQUA_MODIS.20200101_20200108.L3m.8D.SST.sst.4km.nc"
      "sst_data_8day/AQUA_MODIS.20200101_20200108.L3m.8D.SST.sst.4km.nc"
      false 0 (fun _ => .netError)).2.2.2.1
    (fun _ => Or.inr rfl) (by simp)

end Sharko
